import Mathlib

/-!
Shallow embedding of `traffic_jam_simulation.py` (class `Departementale`).

Positions and velocities are numpy integers, modelled as `ℤ` (Python's `%`
on a positive modulus agrees with `Int.emod`).  The clock `t` and the
configuration fields `tmax`, `dt`, `proba_slow` are modelled as `ℚ`.
The two sources of randomness — `np.random.choice([1, 2, 3], nb_cars)` at
initialisation and `np.random.binomial(1, 1 - proba_slow)` once per car per
tick — are externalised as explicit draw streams (`choice : ℕ → Fin 3`
picking an element of the list `[1, 2, 3]`, and `draws : ℕ → ℤ` giving the
Bernoulli value for each car index).
-/

namespace TrafficJam

/-- One car: a row `[position, velocity]` of the numpy array `cars`. -/
structure Car where
  position : ℤ
  velocity : ℤ
  deriving DecidableEq

/-- Default value used for out-of-range list reads (never reached in the
loops, which index inside the list's length). -/
def car0 : Car := { position := 0, velocity := 0 }

/-- The simulation object: the configuration fields of `Departementale`
(`__init__`, lines 42-48) together with the mutable state the methods touch
(the `cars` array and the clock `self.t`). -/
structure Departementale where
  L : ℕ
  nb_cars : ℕ
  vmax : ℤ
  tmax : ℚ
  dt : ℚ
  proba_slow : ℚ
  cars : List Car
  t : ℚ
  deriving DecidableEq

/-- Body of one iteration of the loop in `__simulation` (lines 73-97),
updating a single car.  `next_car_position` is `next_car[0]` as read by the
loop, and `isLast` is `ix == len(cars) - 1`.  The Python statements map
line by line:
`old_position = car[0]`; `next_position = (car[0] + car[1]) % self.L`;
the no-passing clamp (line 86-87); the velocity update (lines 90-94, using
the committed `car[0]`, i.e. the clamped `next_position`); and the final
guard `if next_position > self.L: car[0] = 0` (lines 96-97). -/
def tickCar (L : ℕ) (vmax : ℤ) (p : ℤ) (car : Car) (next_car_position : ℤ)
    (isLast : Bool) : Car :=
  let old_position := car.position
  let next_position := (car.position + car.velocity) % (L : ℤ)
  let next_position :=
    if isLast = false ∧ next_car_position ≤ next_position ∧
        next_position - next_car_position < 3 then
      next_car_position - 1
    else next_position
  let new_velocity :=
    if next_position < old_position then car.velocity
    else min (next_position - old_position + 1) vmax * p +
         max (next_position - old_position - 1) 0 * (1 - p)
  { position := if (L : ℤ) < next_position then 0 else next_position,
    velocity := new_velocity }

/-- `tickCar` with the final defensive guard (lines 96-97 of the source)
removed: the committed position is the clamped `next_position` itself.
Used to state that the guard is a no-op (claim about lines 96-97). -/
def tickCarNoGuard (L : ℕ) (vmax : ℤ) (p : ℤ) (car : Car)
    (next_car_position : ℤ) (isLast : Bool) : Car :=
  let old_position := car.position
  let next_position := (car.position + car.velocity) % (L : ℤ)
  let next_position :=
    if isLast = false ∧ next_car_position ≤ next_position ∧
        next_position - next_car_position < 3 then
      next_car_position - 1
    else next_position
  let new_velocity :=
    if next_position < old_position then car.velocity
    else min (next_position - old_position + 1) vmax * p +
         max (next_position - old_position - 1) 0 * (1 - p)
  { position := next_position, velocity := new_velocity }

/-- One iteration of the `for ix, car in enumerate(cars)` loop of
`__simulation`, parametrised by the per-car update function `upd`
(instantiated with `tickCar`, or `tickCarNoGuard` for the guard-free
variant).  It reads `cars[ix]`, determines `next_car` (lines 78-82:
`cars[0]` when `ix == len(cars)-1`, else `cars[ix+1]`), overwrites row
`ix`, and advances the clock `self.t += self.dt` (line 98). -/
def processCarWith (upd : ℕ → ℤ → ℤ → Car → ℤ → Bool → Car)
    (draws : ℕ → ℤ) (d : Departementale) (ix : ℕ) : Departementale :=
  let car := d.cars.getD ix car0
  let next_car := d.cars.getD (if ix = d.cars.length - 1 then 0 else ix + 1) car0
  { d with
    cars := d.cars.set ix
      (upd d.L d.vmax (draws ix) car next_car.position
        (decide (ix = d.cars.length - 1))),
    t := d.t + d.dt }

/-- The whole loop of `__simulation` over all car indices, for a generic
per-car update. -/
def simulationWith (upd : ℕ → ℤ → ℤ → Car → ℤ → Bool → Car)
    (d : Departementale) (draws : ℕ → ℤ) : Departementale :=
  (List.range d.cars.length).foldl (processCarWith upd draws) d

/-- `Departementale.__simulation` (lines 71-98): one tick, processing every
car in index order, mutating positions, velocities and the clock. -/
def simulation (d : Departementale) (draws : ℕ → ℤ) : Departementale :=
  simulationWith tickCar d draws

/-- `__simulation` with the defensive `next_position > L` guard removed. -/
def simulationNoGuard (d : Departementale) (draws : ℕ → ℤ) : Departementale :=
  simulationWith tickCarNoGuard d draws

/-- Prefix of the `__simulation` loop: only the first `k` cars processed.
`simulationWith upd d draws = simFoldWith upd d draws d.cars.length`. -/
def simFoldWith (upd : ℕ → ℤ → ℤ → Car → ℤ → Bool → Car)
    (d : Departementale) (draws : ℕ → ℤ) (k : ℕ) : Departementale :=
  (List.range k).foldl (processCarWith upd draws) d

/-- A numpy index: `road[0][p]` resolves a negative `p` (with `-L ≤ p`) to
`p + L`; a non-negative in-range `p` is itself. -/
def pyIdx (L : ℕ) (p : ℤ) : ℤ := if p < 0 then p + L else p

/-- `Departementale.__road` (lines 50-55): a length-`L` vector, zero except
for a `1` at each car's position (coincident cars still give `1`). -/
def road (L : ℕ) (cars : List Car) (k : ℕ) : ℚ :=
  if cars.any (fun c => pyIdx L c.position == (k : ℤ)) then 1 else 0

/-- `Departementale.__traffic_density` (lines 63-69): the vector starts as
zeros; the loop `for k in range(2, self.L - 2)` writes the 5-tap smoothing
`r[k-2]/4 + r[k-1]/2 + r[k] + r[k+1]/2 + r[k+2]/4`. -/
def traffic_density (L : ℕ) (cars : List Car) (k : ℕ) : ℚ :=
  if 2 ≤ k ∧ k < L - 2 then
    road L cars (k - 2) / 4 + road L cars (k - 1) / 2 + road L cars k +
      road L cars (k + 1) / 2 + road L cars (k + 2) / 4
  else 0

/-- `Departementale.__create_cars` (lines 57-61): cars at positions
`range(1, nb_cars*2, 2) = 1, 3, 5, …` zipped with `nb_cars` draws from
`np.random.choice([1, 2, 3], nb_cars)`; draw `i` picks element `choice i`
of the list `[1, 2, 3]`. -/
def create_cars (d : Departementale) (choice : ℕ → Fin 3) : List Car :=
  (List.range d.nb_cars).map
    (fun (i : ℕ) =>
      { position := 2 * (i : ℤ) + 1,
        velocity := ([1, 2, 3] : List ℤ).getD (choice i) 0 })

/-- Start of a plotting run (e.g. `linear_plot`, lines 110-113): the `cars`
array is built by `__create_cars` and `self.t` is reset to `0`. -/
def startRun (d : Departementale) (choice : ℕ → Fin 3) : Departementale :=
  { d with cars := create_cars d choice, t := 0 }

/-- `k` successive calls to `__simulation`, with `draws j` the Bernoulli
stream used by call `j`. -/
def runTicks (d : Departementale) (draws : ℕ → ℕ → ℤ) : ℕ → Departementale
  | 0 => d
  | k + 1 => simulation (runTicks d draws k) (draws k)

/-- A shared concrete configuration used to instantiate hypotheses of the
claim theorems: `L = 10`, two cars at the initial-style positions `1` and
`3` with velocities `1` and `2`, `vmax = 3`. -/
def dW : Departementale :=
  { L := 10, nb_cars := 2, vmax := 3, tmax := 200, dt := 1/10,
    proba_slow := 1/4, cars := [⟨1, 1⟩, ⟨3, 2⟩], t := 0 }

/-- The concrete state witnessing that the last-processed car is exempt
from the no-passing check: on `L = 10` with rows `[(1,0), (9,3)]` the last
car moves to position `2`, reaching past row 0's pre-tick position `1`. -/
def dC1e : Departementale :=
  { L := 10, nb_cars := 2, vmax := 3, tmax := 200, dt := 1/10,
    proba_slow := 0, cars := [⟨1, 0⟩, ⟨9, 3⟩], t := 0 }

/-- Configuration of the run refuting the bounds invariant: `L = 5`, two
cars, `vmax = 3` (cars and clock are filled in by `startRun`). -/
def cfgC2 : Departementale :=
  { L := 5, nb_cars := 2, vmax := 3, tmax := 200, dt := 1/10,
    proba_slow := 1/4, cars := [], t := 0 }

/-- Initial velocity draws for that run: picks giving velocities `3`
and `2` from the list `[1, 2, 3]`. -/
def choiceC2 : ℕ → Fin 3 := fun i => if i = 0 then 2 else 1

/-! ### List helper lemmas -/

theorem getD_set_ne (l : List Car) (i j : ℕ) (a : Car) (h : i ≠ j) :
    (l.set i a).getD j car0 = l.getD j car0 := by
  simp [List.getD_eq_getElem?_getD, List.getElem?_set_ne h]

theorem getD_set_self (l : List Car) (i : ℕ) (a : Car) (h : i < l.length) :
    (l.set i a).getD i car0 = a := by
  simp [List.getD_eq_getElem?_getD, List.getElem?_set_self h]

/-! ### Structure of the `__simulation` loop -/

theorem simFoldWith_succ (upd : ℕ → ℤ → ℤ → Car → ℤ → Bool → Car)
    (d : Departementale) (draws : ℕ → ℤ) (k : ℕ) :
    simFoldWith upd d draws (k + 1) =
      processCarWith upd draws (simFoldWith upd d draws k) k := by
  simp [simFoldWith, List.range_succ]

theorem processCarWith_cars (upd : ℕ → ℤ → ℤ → Car → ℤ → Bool → Car)
    (draws : ℕ → ℤ) (d : Departementale) (ix : ℕ) :
    (processCarWith upd draws d ix).cars = d.cars.set ix
      (upd d.L d.vmax (draws ix) (d.cars.getD ix car0)
        ((d.cars.getD (if ix = d.cars.length - 1 then 0 else ix + 1) car0).position)
        (decide (ix = d.cars.length - 1))) := rfl

theorem simFoldWith_config (upd : ℕ → ℤ → ℤ → Car → ℤ → Bool → Car)
    (d : Departementale) (draws : ℕ → ℤ) (k : ℕ) :
    (simFoldWith upd d draws k).L = d.L ∧
    (simFoldWith upd d draws k).nb_cars = d.nb_cars ∧
    (simFoldWith upd d draws k).vmax = d.vmax ∧
    (simFoldWith upd d draws k).tmax = d.tmax ∧
    (simFoldWith upd d draws k).dt = d.dt ∧
    (simFoldWith upd d draws k).proba_slow = d.proba_slow ∧
    (simFoldWith upd d draws k).cars.length = d.cars.length := by
  induction k with
  | zero => exact ⟨rfl, rfl, rfl, rfl, rfl, rfl, rfl⟩
  | succ k ih =>
    obtain ⟨h1, h2, h3, h4, h5, h6, h7⟩ := ih
    rw [simFoldWith_succ]
    refine ⟨h1, h2, h3, h4, h5, h6, ?_⟩
    rw [processCarWith_cars, List.length_set]
    exact h7

theorem simFoldWith_t (upd : ℕ → ℤ → ℤ → Car → ℤ → Bool → Car)
    (d : Departementale) (draws : ℕ → ℤ) (k : ℕ) :
    (simFoldWith upd d draws k).t = d.t + k * d.dt := by
  induction k with
  | zero => simp [simFoldWith]
  | succ k ih =>
    rw [simFoldWith_succ]
    show (simFoldWith upd d draws k).t + (simFoldWith upd d draws k).dt = _
    rw [ih, (simFoldWith_config upd d draws k).2.2.2.2.1]
    push_cast
    ring

theorem simFoldWith_getD_ge (upd : ℕ → ℤ → ℤ → Car → ℤ → Bool → Car)
    (d : Departementale) (draws : ℕ → ℤ) (k j : ℕ) (hj : k ≤ j) :
    (simFoldWith upd d draws k).cars.getD j car0 = d.cars.getD j car0 := by
  revert hj
  induction k with
  | zero => intro hj; rfl
  | succ k ih =>
    intro hj
    rw [simFoldWith_succ, processCarWith_cars, getD_set_ne _ _ _ _ (by omega : k ≠ j)]
    exact ih (by omega)

theorem simFoldWith_getD_lt (upd : ℕ → ℤ → ℤ → Car → ℤ → Bool → Car)
    (hupd : ∀ L vmax p car q q', upd L vmax p car q true = upd L vmax p car q' true)
    (d : Departementale) (draws : ℕ → ℤ) (k : ℕ) (hk : k ≤ d.cars.length)
    (j : ℕ) (hj : j < k) :
    (simFoldWith upd d draws k).cars.getD j car0 =
      upd d.L d.vmax (draws j) (d.cars.getD j car0)
        ((d.cars.getD (if j = d.cars.length - 1 then 0 else j + 1) car0).position)
        (decide (j = d.cars.length - 1)) := by
  revert hk hj
  induction k with
  | zero => intro hk hj; omega
  | succ k ih =>
    intro hk hj
    have hlen : (simFoldWith upd d draws k).cars.length = d.cars.length :=
      (simFoldWith_config upd d draws k).2.2.2.2.2.2
    have hL : (simFoldWith upd d draws k).L = d.L :=
      (simFoldWith_config upd d draws k).1
    have hv : (simFoldWith upd d draws k).vmax = d.vmax :=
      (simFoldWith_config upd d draws k).2.2.1
    rw [simFoldWith_succ, processCarWith_cars]
    by_cases hjk : j = k
    · subst hjk
      rw [getD_set_self _ _ _ (by omega : j < (simFoldWith upd d draws j).cars.length)]
      rw [hlen, hL, hv, simFoldWith_getD_ge upd d draws j j le_rfl]
      by_cases hlast : j = d.cars.length - 1
      · rw [if_pos hlast, decide_eq_true hlast]
        exact hupd d.L d.vmax (draws j) (d.cars.getD j car0)
          (((simFoldWith upd d draws j).cars.getD 0 car0).position)
          ((d.cars.getD 0 car0).position)
      · rw [if_neg hlast, simFoldWith_getD_ge upd d draws j (j + 1) (by omega)]
    · rw [getD_set_ne _ _ _ _ (fun h => hjk h.symm)]
      exact ih (by omega) (by omega)

theorem simulationWith_getD (upd : ℕ → ℤ → ℤ → Car → ℤ → Bool → Car)
    (hupd : ∀ L vmax p car q q', upd L vmax p car q true = upd L vmax p car q' true)
    (d : Departementale) (draws : ℕ → ℤ) (j : ℕ) (hj : j < d.cars.length) :
    (simulationWith upd d draws).cars.getD j car0 =
      upd d.L d.vmax (draws j) (d.cars.getD j car0)
        ((d.cars.getD (if j = d.cars.length - 1 then 0 else j + 1) car0).position)
        (decide (j = d.cars.length - 1)) :=
  simFoldWith_getD_lt upd hupd d draws d.cars.length le_rfl j hj

theorem tickCar_isLast_indep (L : ℕ) (vmax p : ℤ) (car : Car) (q q' : ℤ) :
    tickCar L vmax p car q true = tickCar L vmax p car q' true := by
  simp [tickCar]

theorem tickCarNoGuard_isLast_indep (L : ℕ) (vmax p : ℤ) (car : Car) (q q' : ℤ) :
    tickCarNoGuard L vmax p car q true = tickCarNoGuard L vmax p car q' true := by
  simp [tickCarNoGuard]

theorem simulation_getD (d : Departementale) (draws : ℕ → ℤ) (j : ℕ)
    (hj : j < d.cars.length) :
    (simulation d draws).cars.getD j car0 =
      tickCar d.L d.vmax (draws j) (d.cars.getD j car0)
        ((d.cars.getD (if j = d.cars.length - 1 then 0 else j + 1) car0).position)
        (decide (j = d.cars.length - 1)) :=
  simulationWith_getD tickCar
    (fun L vmax p car q q' => tickCar_isLast_indep L vmax p car q q') d draws j hj

theorem simulationNoGuard_getD (d : Departementale) (draws : ℕ → ℤ) (j : ℕ)
    (hj : j < d.cars.length) :
    (simulationNoGuard d draws).cars.getD j car0 =
      tickCarNoGuard d.L d.vmax (draws j) (d.cars.getD j car0)
        ((d.cars.getD (if j = d.cars.length - 1 then 0 else j + 1) car0).position)
        (decide (j = d.cars.length - 1)) :=
  simulationWith_getD tickCarNoGuard
    (fun L vmax p car q q' => tickCarNoGuard_isLast_indep L vmax p car q q') d draws j hj

theorem emod_le_self_of_nonneg (a b : ℤ) (ha : 0 ≤ a) (hb : 0 < b) : a % b ≤ a := by
  have h := Int.emod_add_ediv a b
  have hdiv : 0 ≤ a / b := Int.ediv_nonneg ha hb.le
  have h2 : 0 ≤ b * (a / b) := mul_nonneg hb.le hdiv
  omega

/-- Reading car `i` of `__create_cars` output. -/
theorem create_cars_getD (d : Departementale) (choice : ℕ → Fin 3) (i : ℕ)
    (hi : i < d.nb_cars) :
    (create_cars d choice).getD i car0 =
      { position := 2 * (i : ℤ) + 1,
        velocity := ([1, 2, 3] : List ℤ).getD (choice i) 0 } := by
  rw [create_cars, List.getD_eq_getElem?_getD, List.getElem?_map,
    List.getElem?_range hi]
  rfl

/-! ### Claims -/

/-- Claim C5: the density vector is exactly 0 at indices `0`, `1`, `L-2`
and `L-1` for every configuration with `L ≥ 4` and every road state: the
smoothing loop only writes indices `2 … L-3`. -/
theorem claim5_density_boundary (L : ℕ) (cars : List Car) (hL : 4 ≤ L) :
    traffic_density L cars 0 = 0 ∧ traffic_density L cars 1 = 0 ∧
    traffic_density L cars (L - 2) = 0 ∧ traffic_density L cars (L - 1) = 0 := by
  refine ⟨?_, ?_, ?_, ?_⟩ <;>
    · rw [traffic_density, if_neg (by omega)]

theorem claim5_density_boundary_witness :
    traffic_density 5 [⟨2, 0⟩] 0 = 0 :=
  (claim5_density_boundary 5 [⟨2, 0⟩] (by decide)).1

/-- Claim C6: with the random draws replaced by explicit streams, two runs
with identical configuration, identical initial velocity draws and
identical per-tick Bernoulli streams produce identical states (hence
identical position and velocity trajectories) at every tick. -/
theorem claim6_determinism (d₁ d₂ : Departementale) (choice₁ choice₂ : ℕ → Fin 3)
    (draws₁ draws₂ : ℕ → ℕ → ℤ) (k : ℕ) (hd : d₁ = d₂) (hc : choice₁ = choice₂)
    (hdr : draws₁ = draws₂) :
    runTicks (startRun d₁ choice₁) draws₁ k = runTicks (startRun d₂ choice₂) draws₂ k := by
  subst hd
  subst hc
  subst hdr
  rfl

theorem claim6_determinism_witness :
    runTicks (startRun dW (fun _ => 0)) (fun _ _ => 1) 3 =
      runTicks (startRun dW (fun _ => 0)) (fun _ _ => 1) 3 :=
  claim6_determinism dW dW (fun _ => 0) (fun _ => 0) (fun _ _ => 1) (fun _ _ => 1) 3
    rfl rfl rfl

/-- Claim C7: `__create_cars` returns exactly `nb_cars` cars, at the fixed
odd positions `1, 3, …, 2·nb_cars − 1` (strictly increasing in the index),
with velocities drawn from the fixed set `{1, 2, 3}`; the result does not
depend on `vmax` (nor on any configuration field other than `nb_cars`). -/
theorem claim7_create_cars (d : Departementale) (choice : ℕ → Fin 3) :
    (create_cars d choice).length = d.nb_cars ∧
    (∀ i, i < d.nb_cars →
      ((create_cars d choice).getD i car0).position = 2 * (i : ℤ) + 1) ∧
    (∀ i j, i < j → j < d.nb_cars →
      ((create_cars d choice).getD i car0).position <
        ((create_cars d choice).getD j car0).position) ∧
    (∀ i, i < d.nb_cars →
      ((create_cars d choice).getD i car0).velocity = 1 ∨
      ((create_cars d choice).getD i car0).velocity = 2 ∨
      ((create_cars d choice).getD i car0).velocity = 3) ∧
    (∀ e : Departementale, e.nb_cars = d.nb_cars →
      create_cars e choice = create_cars d choice) := by
  refine ⟨?_, ?_, ?_, ?_, ?_⟩
  · simp [create_cars]
  · intro i hi
    rw [create_cars_getD d choice i hi]
  · intro i j hij hj
    rw [create_cars_getD d choice i (by omega), create_cars_getD d choice j hj]
    show 2 * (i : ℤ) + 1 < 2 * (j : ℤ) + 1
    omega
  · intro i hi
    rw [create_cars_getD d choice i hi]
    rcases choice i with ⟨v, hv⟩
    interval_cases v <;> simp
  · intro e he
    rw [create_cars, create_cars, he]

theorem claim7_create_cars_witness :
    (create_cars dW (fun _ => 0)).length = 2 :=
  (claim7_create_cars dW (fun _ => 0)).1

/-- For a non-last car the update can never reach or pass `q`, the
position its clamp compares against, within a gap below 3 cells. -/
theorem tickCar_no_passing (L : ℕ) (vmax p : ℤ) (car : Car) (q : ℤ) (hL : 0 < L) :
    ¬ (q ≤ (tickCar L vmax p car q false).position ∧
       (tickCar L vmax p car q false).position - q < 3) := by
  have hLz : (0 : ℤ) < (L : ℤ) := by exact_mod_cast hL
  have hm0 : 0 ≤ (car.position + car.velocity) % (L : ℤ) :=
    Int.emod_nonneg _ (by omega)
  have hm1 : (car.position + car.velocity) % (L : ℤ) < (L : ℤ) :=
    Int.emod_lt_of_pos _ hLz
  simp only [tickCar, eq_self_iff_true, true_and]
  split_ifs with hC hG <;> omega

/-- Claim C1: in every tick, every car except the one at the highest index
satisfies the no-passing margin against the pre-tick position of its
index-successor: its committed position `p` never satisfies
`p ≥ successor_pre ∧ p − successor_pre < 3`.  Moreover the exemption is
exactly the highest index: there is a configuration in which the
highest-index car does violate that margin against row 0's pre-tick
position. -/
theorem claim1_no_passing :
    (∀ (d : Departementale) (draws : ℕ → ℤ) (j : ℕ), 0 < d.L →
      j + 1 < d.cars.length →
      ¬ ((d.cars.getD (j + 1) car0).position ≤
            ((simulation d draws).cars.getD j car0).position ∧
         ((simulation d draws).cars.getD j car0).position -
            (d.cars.getD (j + 1) car0).position < 3)) ∧
    ((dC1e.cars.getD 0 car0).position ≤
        ((simulation dC1e (fun _ => 1)).cars.getD 1 car0).position ∧
     ((simulation dC1e (fun _ => 1)).cars.getD 1 car0).position -
        (dC1e.cars.getD 0 car0).position < 3) := by
  constructor
  · intro d draws j hL hj
    have hjlt : j < d.cars.length := by omega
    have hnl : j ≠ d.cars.length - 1 := by omega
    rw [simulation_getD d draws j hjlt, if_neg hnl, decide_eq_false hnl]
    exact tickCar_no_passing d.L d.vmax (draws j) (d.cars.getD j car0)
      ((d.cars.getD (j + 1) car0).position) hL
  · decide

theorem claim1_no_passing_witness :
    ¬ ((dC1e.cars.getD 1 car0).position ≤
          ((simulation dC1e (fun _ => 1)).cars.getD 0 car0).position ∧
       ((simulation dC1e (fun _ => 1)).cars.getD 0 car0).position -
          (dC1e.cars.getD 1 car0).position < 3) :=
  claim1_no_passing.1 dC1e (fun _ => 1) 0 (by decide) (by decide)

/-- The velocity component never depends on the final defensive guard. -/
theorem tickCar_velocity_eq (L : ℕ) (vmax p : ℤ) (car : Car) (q : ℤ)
    (isLast : Bool) :
    (tickCar L vmax p car q isLast).velocity =
      (tickCarNoGuard L vmax p car q isLast).velocity := rfl

/-- When the compared position `q` is below `L`, the defensive guard of
`tickCar` cannot fire, so `tickCar` agrees with the guard-free variant. -/
theorem tickCar_eq_noGuard (L : ℕ) (vmax p : ℤ) (car : Car) (q : ℤ)
    (isLast : Bool) (hL : 0 < L) (hq : q < (L : ℤ)) :
    tickCar L vmax p car q isLast = tickCarNoGuard L vmax p car q isLast := by
  have hLz : (0 : ℤ) < (L : ℤ) := by exact_mod_cast hL
  have hm1 : (car.position + car.velocity) % (L : ℤ) < (L : ℤ) :=
    Int.emod_lt_of_pos _ hLz
  simp only [tickCar, tickCarNoGuard]
  by_cases hC : isLast = false ∧ q ≤ (car.position + car.velocity) % (L : ℤ) ∧
      (car.position + car.velocity) % (L : ℤ) - q < 3
  · rw [if_pos hC, if_neg (by omega : ¬ ((L : ℤ) < q - 1))]
  · rw [if_neg hC, if_neg
      (by omega : ¬ ((L : ℤ) < (car.position + car.velocity) % (L : ℤ)))]

/-- For the last-processed car the clamp is disabled, so the guard-free
agreement needs no bound on the compared position at all. -/
theorem tickCar_eq_noGuard_last (L : ℕ) (vmax p : ℤ) (car : Car) (q : ℤ)
    (hL : 0 < L) :
    tickCar L vmax p car q true = tickCarNoGuard L vmax p car q true := by
  have hLz : (0 : ℤ) < (L : ℤ) := by exact_mod_cast hL
  have hm1 : (car.position + car.velocity) % (L : ℤ) < (L : ℤ) :=
    Int.emod_lt_of_pos _ hLz
  have hC : ¬ ((true : Bool) = false ∧
      q ≤ (car.position + car.velocity) % (L : ℤ) ∧
      (car.position + car.velocity) % (L : ℤ) - q < 3) := fun h => nomatch h.1
  simp only [tickCar, tickCarNoGuard]
  rw [if_neg hC, if_neg
    (by omega : ¬ ((L : ℤ) < (car.position + car.velocity) % (L : ℤ)))]

/-- Claim C3: the committed velocity of every processed car follows the
source rule: unchanged if the committed position is numerically below the
old one (raw wrap test), else `p·min(advance+1, vmax) + (1−p)·max(advance−1, 0)`
with `advance` the committed position minus the old one. -/
theorem claim3_velocity_rule (d : Departementale) (draws : ℕ → ℤ) (j : ℕ)
    (hL : 0 < d.L) (hj : j < d.cars.length)
    (hub : ∀ i, i < d.cars.length → (d.cars.getD i car0).position < (d.L : ℤ)) :
    ((simulation d draws).cars.getD j car0).velocity =
      if ((simulation d draws).cars.getD j car0).position <
          (d.cars.getD j car0).position
      then (d.cars.getD j car0).velocity
      else draws j * min (((simulation d draws).cars.getD j car0).position -
              (d.cars.getD j car0).position + 1) d.vmax +
           (1 - draws j) * max (((simulation d draws).cars.getD j car0).position -
              (d.cars.getD j car0).position - 1) 0 := by
  have hidx : (if j = d.cars.length - 1 then 0 else j + 1) < d.cars.length := by
    split_ifs <;> omega
  have hq : (d.cars.getD (if j = d.cars.length - 1 then 0 else j + 1)
      car0).position < (d.L : ℤ) := hub _ hidx
  rw [simulation_getD d draws j hj,
    tickCar_eq_noGuard d.L d.vmax (draws j) _ _ _ hL hq]
  simp only [tickCarNoGuard]
  split_ifs <;> first | rfl | ring

theorem claim3_velocity_rule_witness :
    ((simulation dW (fun _ => 1)).cars.getD 0 car0).velocity = 2 := by
  have h := claim3_velocity_rule dW (fun _ => 1) 0 (by decide) (by decide)
    (by decide)
  rw [h]
  decide

/-- The `__simulation` loop and its guard-free variant coincide whenever
all pre-tick positions are below `L`. -/
theorem simFoldWith_guard_eq (d : Departementale) (draws : ℕ → ℤ) (hL : 0 < d.L)
    (hub : ∀ i, i < d.cars.length → (d.cars.getD i car0).position < (d.L : ℤ))
    (k : ℕ) (hk : k ≤ d.cars.length) :
    simFoldWith tickCar d draws k = simFoldWith tickCarNoGuard d draws k := by
  revert hk
  induction k with
  | zero => intro _; rfl
  | succ k ih =>
    intro hk
    have hlen : (simFoldWith tickCar d draws k).cars.length = d.cars.length :=
      (simFoldWith_config tickCar d draws k).2.2.2.2.2.2
    have hSL : (simFoldWith tickCar d draws k).L = d.L :=
      (simFoldWith_config tickCar d draws k).1
    rw [simFoldWith_succ, simFoldWith_succ, ← ih (by omega)]
    simp only [processCarWith]
    congr 1
    congr 1
    by_cases hlast : k = (simFoldWith tickCar d draws k).cars.length - 1
    · rw [decide_eq_true hlast]
      exact tickCar_eq_noGuard_last _ _ _ _ _ (by omega)
    · rw [decide_eq_false hlast, if_neg hlast,
        simFoldWith_getD_ge tickCar d draws k (k + 1) (by omega)]
      have hb := hub (k + 1) (by omega)
      exact tickCar_eq_noGuard _ _ _ _ _ false (by omega)
        (by rw [hSL]; exact hb)

/-- Claim C8: under in-range pre-tick positions, every committed
`next_position` is at most `L` when the final guard is reached, so the
branch resetting the position to 0 never executes and `__simulation` is
unchanged by its presence. -/
theorem claim8_guard_noop (d : Departementale) (draws : ℕ → ℤ) (hL : 0 < d.L)
    (hub : ∀ i, i < d.cars.length → (d.cars.getD i car0).position < (d.L : ℤ)) :
    simulation d draws = simulationNoGuard d draws ∧
    ∀ j, j < d.cars.length →
      ((simulationNoGuard d draws).cars.getD j car0).position ≤ (d.L : ℤ) := by
  constructor
  · exact simFoldWith_guard_eq d draws hL hub d.cars.length le_rfl
  · intro j hj
    have hLz : (0 : ℤ) < (d.L : ℤ) := by exact_mod_cast hL
    have hm1 : ((d.cars.getD j car0).position +
        (d.cars.getD j car0).velocity) % (d.L : ℤ) < (d.L : ℤ) :=
      Int.emod_lt_of_pos _ hLz
    rw [simulationNoGuard_getD d draws j hj]
    simp only [tickCarNoGuard]
    by_cases hlast : j = d.cars.length - 1
    · rw [decide_eq_true hlast, if_neg (fun h => nomatch h.1 : ¬ ((true : Bool) = false ∧
        (d.cars.getD (if j = d.cars.length - 1 then 0 else j + 1) car0).position ≤
          ((d.cars.getD j car0).position + (d.cars.getD j car0).velocity) % (d.L : ℤ) ∧
        ((d.cars.getD j car0).position + (d.cars.getD j car0).velocity) % (d.L : ℤ) -
          (d.cars.getD (if j = d.cars.length - 1 then 0 else j + 1) car0).position < 3))]
      omega
    · rw [decide_eq_false hlast, if_neg hlast]
      have hb := hub (j + 1) (by omega)
      split_ifs with hC
      · omega
      · omega

theorem claim8_guard_noop_witness :
    simulation dW (fun _ => 1) = simulationNoGuard dW (fun _ => 1) :=
  (claim8_guard_noop dW (fun _ => 1) (by decide) (by decide)).1

/-- Claim C9: one call to `__simulation` advances the clock by exactly
`nb_cars · dt`, because `self.t += self.dt` sits inside the per-car loop. -/
theorem claim9_clock (d : Departementale) (draws : ℕ → ℤ)
    (h : d.cars.length = d.nb_cars) :
    (simulation d draws).t = d.t + (d.nb_cars : ℚ) * d.dt := by
  show (simFoldWith tickCar d draws d.cars.length).t = _
  rw [simFoldWith_t, h]

theorem claim9_clock_witness :
    (simulation dW (fun _ => 1)).t = dW.t + (dW.nb_cars : ℚ) * dW.dt :=
  claim9_clock dW (fun _ => 1) rfl

/-- Claim C10: a call to `__simulation` mutates only the cars and the
clock `t`: the configuration fields `L`, `nb_cars`, `vmax`, `tmax`, `dt`,
`proba_slow` are unchanged, and the number of cars is unchanged. -/
theorem claim10_frame (d : Departementale) (draws : ℕ → ℤ) :
    (simulation d draws).L = d.L ∧
    (simulation d draws).nb_cars = d.nb_cars ∧
    (simulation d draws).vmax = d.vmax ∧
    (simulation d draws).tmax = d.tmax ∧
    (simulation d draws).dt = d.dt ∧
    (simulation d draws).proba_slow = d.proba_slow ∧
    (simulation d draws).cars.length = d.cars.length :=
  simFoldWith_config tickCar d draws d.cars.length

/-- Claim C2 fails on the code: starting from a genuine initial state
(`L = 5`, two cars at positions `1, 3` with velocities `3, 2` drawn from
`{1, 2, 3}`), two ticks of "slow" draws leave car 0 at position `-1`: on
tick 2 its free-flow position `2` is clamped to `next_car.position − 1`
while its successor sits at cell `0`.  So a position drops below `0`. -/
theorem claim2_bounds_cex :
    ((runTicks (startRun cfgC2 choiceC2) (fun _ _ => 0) 2).cars.getD 0
        car0).position = -1 ∧
    ¬ (0 ≤ ((runTicks (startRun cfgC2 choiceC2) (fun _ _ => 0) 2).cars.getD 0
        car0).position) := by
  decide

/-- One car update preserves the bounds, provided `q` — the position the
clamp compares against — is in `[1, L)` whenever the car is not exempt. -/
theorem tickCar_bounds (L : ℕ) (vmax p : ℤ) (car : Car) (q : ℤ) (isLast : Bool)
    (hL : 0 < L) (hv : 0 ≤ vmax) (hp : p = 0 ∨ p = 1)
    (h1 : 0 ≤ car.position) (h2 : car.position < (L : ℤ))
    (h3 : 0 ≤ car.velocity) (h4 : car.velocity ≤ vmax)
    (hq : isLast = false → 1 ≤ q ∧ q < (L : ℤ)) :
    0 ≤ (tickCar L vmax p car q isLast).position ∧
    (tickCar L vmax p car q isLast).position < (L : ℤ) ∧
    0 ≤ (tickCar L vmax p car q isLast).velocity ∧
    (tickCar L vmax p car q isLast).velocity ≤ vmax := by
  have hLz : (0 : ℤ) < (L : ℤ) := by exact_mod_cast hL
  have hm0 : 0 ≤ (car.position + car.velocity) % (L : ℤ) :=
    Int.emod_nonneg _ (by omega)
  have hm1 : (car.position + car.velocity) % (L : ℤ) < (L : ℤ) :=
    Int.emod_lt_of_pos _ hLz
  have hmle : (car.position + car.velocity) % (L : ℤ) ≤ car.position + car.velocity :=
    emod_le_self_of_nonneg _ _ (by omega) hLz
  simp only [tickCar]
  cases isLast with
  | true =>
    have hC : ¬ ((true : Bool) = false ∧
        q ≤ (car.position + car.velocity) % (L : ℤ) ∧
        (car.position + car.velocity) % (L : ℤ) - q < 3) := fun h => nomatch h.1
    rw [if_neg hC, if_neg
      (by omega : ¬ ((L : ℤ) < (car.position + car.velocity) % (L : ℤ)))]
    rcases hp with hp | hp <;> subst hp <;>
      simp only [mul_zero, mul_one, zero_mul, one_mul, zero_add, add_zero,
        sub_zero, sub_self] <;>
      split_ifs <;> omega
  | false =>
    have hq1 := hq rfl
    simp only [eq_self_iff_true, true_and]
    rcases hp with hp | hp <;> subst hp <;>
      simp only [mul_zero, mul_one, zero_mul, one_mul, zero_add, add_zero,
        sub_zero, sub_self] <;>
      split_ifs <;> omega

/-- Claim C2, amended: the bounds `0 ≤ position < L` and
`0 ≤ velocity ≤ vmax` are preserved by one call to `__simulation`,
provided additionally that every draw is a Bernoulli value in `{0, 1}`,
`vmax ≥ 0`, and every car other than row 0 starts the tick at position
`≥ 1` (when an index-successor occupies cell `0`, the clamp produces the
out-of-range position `−1`, as the counterexample shows; and with
`vmax < 3` the initial velocities drawn from `{1, 2, 3}` already violate
the velocity bound, so the bound is assumed on entry). -/
theorem claim2_bounds_preserved (d : Departementale) (draws : ℕ → ℤ)
    (hL : 0 < d.L) (hvm : 0 ≤ d.vmax)
    (hdr : ∀ i, draws i = 0 ∨ draws i = 1)
    (hpre : ∀ i, i < d.cars.length → 0 ≤ (d.cars.getD i car0).position ∧
      (d.cars.getD i car0).position < (d.L : ℤ) ∧
      0 ≤ (d.cars.getD i car0).velocity ∧
      (d.cars.getD i car0).velocity ≤ d.vmax)
    (hsucc : ∀ i, 0 < i → i < d.cars.length →
      1 ≤ (d.cars.getD i car0).position) :
    ∀ j, j < d.cars.length →
      0 ≤ ((simulation d draws).cars.getD j car0).position ∧
      ((simulation d draws).cars.getD j car0).position < (d.L : ℤ) ∧
      0 ≤ ((simulation d draws).cars.getD j car0).velocity ∧
      ((simulation d draws).cars.getD j car0).velocity ≤ d.vmax := by
  intro j hj
  obtain ⟨h1, h2, h3, h4⟩ := hpre j hj
  rw [simulation_getD d draws j hj]
  apply tickCar_bounds d.L d.vmax (draws j) _ _ _ hL hvm (hdr j) h1 h2 h3 h4
  intro hfalse
  have hnl : ¬ j = d.cars.length - 1 := of_decide_eq_false hfalse
  rw [if_neg hnl]
  exact ⟨hsucc (j + 1) (by omega) (by omega), (hpre (j + 1) (by omega)).2.1⟩

theorem claim2_bounds_preserved_witness :
    0 ≤ ((simulation dW (fun _ => 1)).cars.getD 0 car0).position ∧
    ((simulation dW (fun _ => 1)).cars.getD 0 car0).position < (dW.L : ℤ) ∧
    0 ≤ ((simulation dW (fun _ => 1)).cars.getD 0 car0).velocity ∧
    ((simulation dW (fun _ => 1)).cars.getD 0 car0).velocity ≤ dW.vmax :=
  claim2_bounds_preserved dW (fun _ => 1) (by decide) (by decide)
    (fun _ => Or.inr rfl) (by decide)
    (by intro i h0 h2
        have hlt : i < 2 := h2
        interval_cases i <;> decide) 0 (by decide)

theorem pyIdx_nonneg (L : ℕ) (p : ℤ) (hp : 0 ≤ p) : pyIdx L p = p := by
  rw [pyIdx, if_neg (by omega)]

theorem road_singleton (L : ℕ) (c : Car) (k : ℕ) :
    road L [c] k = if pyIdx L c.position = (k : ℤ) then 1 else 0 := by
  simp [road]

/-- Claim C4 fails on the code: on `L = 12` with cars at cells `3` and `6`,
the car at `3` has no other car within 2 cells on either side (the gap is
3), yet the density two cells away at index `5` is `3/4`, not the claimed
`1/4`, because the 5-tap window centred at `5` also sees the car at `6`. -/
theorem claim4_density_cex :
    traffic_density 12 [⟨3, 0⟩, ⟨6, 0⟩] 5 = 3/4 ∧
    ¬ traffic_density 12 [⟨3, 0⟩, ⟨6, 0⟩] 5 = 1/4 := by
  norm_num [traffic_density, road, pyIdx]

/-- Claim C4, amended: for a road state holding exactly one car (a lone
car, trivially isolated) at an in-range position, the density vector is
`1` at the car's cell, `1/2` at exactly the cells one away on each side,
`1/4` at exactly the cells two away, and `0` everywhere else — except that
the boundary indices `k < 2` and `k ≥ L − 2` are always `0`. -/
theorem claim4_density_isolated (L : ℕ) (c : Car) (h0 : 0 ≤ c.position)
    (hL : c.position < (L : ℤ)) (k : ℕ) (hk : k < L) :
    traffic_density L [c] k =
      if k < 2 ∨ L - 2 ≤ k then 0
      else if (k : ℤ) = c.position then 1
      else if (k : ℤ) = c.position - 1 ∨ (k : ℤ) = c.position + 1 then 1/2
      else if (k : ℤ) = c.position - 2 ∨ (k : ℤ) = c.position + 2 then 1/4
      else 0 := by
  by_cases hint : 2 ≤ k ∧ k < L - 2
  case neg =>
    rw [traffic_density, if_neg hint, if_pos (by omega)]
  case pos =>
    rw [traffic_density, if_pos hint, if_neg (by omega : ¬ (k < 2 ∨ L - 2 ≤ k))]
    rw [road_singleton, road_singleton, road_singleton, road_singleton,
      road_singleton, pyIdx_nonneg L c.position h0]
    have e2 : ((k - 2 : ℕ) : ℤ) = (k : ℤ) - 2 := by omega
    have e1 : ((k - 1 : ℕ) : ℤ) = (k : ℤ) - 1 := by omega
    have e3 : ((k + 1 : ℕ) : ℤ) = (k : ℤ) + 1 := by omega
    have e4 : ((k + 2 : ℕ) : ℤ) = (k : ℤ) + 2 := by omega
    rw [e2, e1, e3, e4]
    rcases (by omega : (k : ℤ) = c.position ∨ (k : ℤ) = c.position - 1 ∨
        (k : ℤ) = c.position + 1 ∨ (k : ℤ) = c.position - 2 ∨
        (k : ℤ) = c.position + 2 ∨
        (c.position < (k : ℤ) - 2 ∨ (k : ℤ) + 2 < c.position))
      with h | h | h | h | h | h
    · rw [if_neg (by omega : ¬ c.position = (k : ℤ) - 2),
        if_neg (by omega : ¬ c.position = (k : ℤ) - 1),
        if_pos (by omega : c.position = (k : ℤ)),
        if_neg (by omega : ¬ c.position = (k : ℤ) + 1),
        if_neg (by omega : ¬ c.position = (k : ℤ) + 2),
        if_pos (by omega : (k : ℤ) = c.position)]
      norm_num
    · rw [if_neg (by omega : ¬ c.position = (k : ℤ) - 2),
        if_neg (by omega : ¬ c.position = (k : ℤ) - 1),
        if_neg (by omega : ¬ c.position = (k : ℤ)),
        if_pos (by omega : c.position = (k : ℤ) + 1),
        if_neg (by omega : ¬ c.position = (k : ℤ) + 2),
        if_neg (by omega : ¬ (k : ℤ) = c.position),
        if_pos (Or.inl h)]
      norm_num
    · rw [if_neg (by omega : ¬ c.position = (k : ℤ) - 2),
        if_pos (by omega : c.position = (k : ℤ) - 1),
        if_neg (by omega : ¬ c.position = (k : ℤ)),
        if_neg (by omega : ¬ c.position = (k : ℤ) + 1),
        if_neg (by omega : ¬ c.position = (k : ℤ) + 2),
        if_neg (by omega : ¬ (k : ℤ) = c.position),
        if_pos (Or.inr h)]
      norm_num
    · rw [if_neg (by omega : ¬ c.position = (k : ℤ) - 2),
        if_neg (by omega : ¬ c.position = (k : ℤ) - 1),
        if_neg (by omega : ¬ c.position = (k : ℤ)),
        if_neg (by omega : ¬ c.position = (k : ℤ) + 1),
        if_pos (by omega : c.position = (k : ℤ) + 2),
        if_neg (by omega : ¬ (k : ℤ) = c.position),
        if_neg (by omega : ¬ ((k : ℤ) = c.position - 1 ∨ (k : ℤ) = c.position + 1)),
        if_pos (Or.inl h)]
      norm_num
    · rw [if_pos (by omega : c.position = (k : ℤ) - 2),
        if_neg (by omega : ¬ c.position = (k : ℤ) - 1),
        if_neg (by omega : ¬ c.position = (k : ℤ)),
        if_neg (by omega : ¬ c.position = (k : ℤ) + 1),
        if_neg (by omega : ¬ c.position = (k : ℤ) + 2),
        if_neg (by omega : ¬ (k : ℤ) = c.position),
        if_neg (by omega : ¬ ((k : ℤ) = c.position - 1 ∨ (k : ℤ) = c.position + 1)),
        if_pos (Or.inr h)]
      norm_num
    · rw [if_neg (by omega : ¬ c.position = (k : ℤ) - 2),
        if_neg (by omega : ¬ c.position = (k : ℤ) - 1),
        if_neg (by omega : ¬ c.position = (k : ℤ)),
        if_neg (by omega : ¬ c.position = (k : ℤ) + 1),
        if_neg (by omega : ¬ c.position = (k : ℤ) + 2),
        if_neg (by omega : ¬ (k : ℤ) = c.position),
        if_neg (by omega : ¬ ((k : ℤ) = c.position - 1 ∨ (k : ℤ) = c.position + 1)),
        if_neg (by omega : ¬ ((k : ℤ) = c.position - 2 ∨ (k : ℤ) = c.position + 2))]
      norm_num

theorem claim4_density_isolated_witness :
    traffic_density 9 [⟨4, 0⟩] 2 = 1/4 := by
  have h := claim4_density_isolated 9 ⟨4, 0⟩ (by decide) (by decide) 2 (by decide)
  rw [h]
  norm_num

end TrafficJam
